import Mathlib

/-! svgLiveReloader: the change-detection-to-broadcast pipeline.

A shallow embedding of `main.go`:

* the watcher goroutine started in `main` (lines 54-76), as a machine whose
  program points are the two blocking operations (the send on `commC` and the
  `select` over `watcher.Events` / `watcher.Errors`);
* `wsWriter.handler` (lines 110-143), as a machine whose program points are
  the `select` (line 124), the `ioutil.ReadFile` call (line 129), the write
  of the message (lines 134-140) and the return;
* the whole process: one watcher, any number of handlers, and the single
  unbuffered channel `commC` (line 44) on which a send completes only
  together with one receive.

What the operating system and the libraries decide (which `select` case
fires, what `ReadFile` returns, whether a write succeeds) is the label of a
step, so every property below quantifies over all such choices.
-/

namespace SvgLiveReloader

/-! ## fsnotify events -/

/-- Bit of `fsnotify.Create` in an `fsnotify.Op` (`1 << iota`, first constant). -/
def Create : Nat := 1

/-- Bit of `fsnotify.Write` in an `fsnotify.Op` (second constant). -/
def Write : Nat := 2

/-- An `fsnotify.Event`: the path the event is about and the bit set of operations. -/
structure Event where
  Name : String
  Op : Nat
deriving DecidableEq, Repr

/-- The method `event.Has(op)` of fsnotify: `e.Op&op == op`. -/
def Event.Has (e : Event) (op : Nat) : Bool :=
  e.Op &&& op == op

/-! ## The watcher goroutine (main.go, lines 54-76) -/

/-- What one round of the goroutine's `select` receives. -/
inductive WatcherInput where
  /-- Line 59 with `ok`: an event from `watcher.Events`. -/
  | event (e : Event)
  /-- Line 59 with `!ok`: `watcher.Events` is closed. -/
  | eventsClosed
  /-- Line 69 with `ok`: an error from `watcher.Errors`. -/
  | error (err : String)
  /-- Line 69 with `!ok`: `watcher.Errors` is closed. -/
  | errorsClosed
deriving DecidableEq, Repr

/-- Program points of the goroutine. -/
inductive WatcherPC where
  /-- Blocked in `commC <- name` (line 56 or line 66). -/
  | sending (name : String)
  /-- Blocked in the `select` of line 58. -/
  | selecting
  /-- The goroutine has returned (line 61 or line 71). -/
  | returned
deriving DecidableEq, Repr

/-- State of the goroutine, with what it has done so far. -/
structure Watcher where
  pc : WatcherPC
  /-- Values whose send on `commC` has completed, oldest first. -/
  sent : List String
  /-- Lines given to `log.Println`, oldest first. -/
  logged : List String
deriving DecidableEq, Repr

/-- Entry of the goroutine: the first statement is `commC <- fullPath` (line 56). -/
def Watcher.start (fullPath : String) : Watcher :=
  { pc := .sending fullPath, sent := [], logged := [] }

/-- A receiver took the value of the pending send: the goroutine goes (back) to the `select`. -/
def Watcher.completeSend (w : Watcher) : Watcher :=
  match w.pc with
  | .sending name => { w with pc := .selecting, sent := w.sent ++ [name] }
  | _ => w

/-- One round of the `select` (lines 58-74) on the received input. Outside the `select`
the goroutine receives nothing. -/
def Watcher.recv (fullPath : String) (w : Watcher) (i : WatcherInput) : Watcher :=
  match w.pc with
  | .selecting =>
    match i with
    | .event e =>
      if e.Has Write || e.Has Create then
        if e.Name == fullPath then
          { w with pc := .sending e.Name, logged := w.logged ++ [e.Name] }
        else w
      else w
    | .eventsClosed => { w with pc := .returned }
    | .error err => { w with logged := w.logged ++ ["error: " ++ err] }
    | .errorsClosed => { w with pc := .returned }
  | _ => w

/-- The goroutine run against receivers that take every value sent on `commC`: the
initial send, then for each input one round of the `select` followed by the send it
may have started. -/
def watcherGoroutine (fullPath : String) (inputs : List WatcherInput) : Watcher :=
  inputs.foldl (fun w i => (w.recv fullPath i).completeSend) (Watcher.start fullPath).completeSend

/-- A qualifying event in the words of the specification: its path is the watched path
and its operation has the Write or the Create bit set. -/
def qualifying (fullPath : String) (e : Event) : Bool :=
  decide (e.Name = fullPath) && (e.Op.testBit 1 || e.Op.testBit 0)

/-! ## Formatting and the message writer -/

/-- Bytes of a file or of a message payload. -/
abbrev Bytes := List UInt8

/-- The formatting loop of `fmt.Fprintf` for the verbs this program can reach: `%s`
with a `[]byte` operand writes the operand's bytes uninterpreted, `%%` writes one
percent sign, every other byte of the format is copied. A `%s` without operand
writes `%!s(MISSING)`. Byte 37 is the percent sign, byte 115 is the letter s. -/
def fprintf : List UInt8 → List Bytes → Bytes
  | [], _ => []
  | 37 :: 115 :: rest, arg :: args => arg ++ fprintf rest args
  | 37 :: 115 :: rest, [] => "%!s(MISSING)".toUTF8.toList ++ fprintf rest []
  | 37 :: 37 :: rest, args => 37 :: fprintf rest args
  | b :: rest, args => b :: fprintf rest args

/-- The format string of line 139, `"%s"`. -/
def svgFormat : List UInt8 := [37, 115]

/-- The message types of the websocket library. -/
inductive MessageType where
  | MessageText
  | MessageBinary
deriving DecidableEq, Repr

/-- The close status codes the handler uses. -/
inductive StatusCode where
  | StatusNormalClosure
  | StatusInternalError
deriving DecidableEq, Repr

/-! ## wsWriter.handler (main.go, lines 110-143) -/

/-- Program points of the handler after a successful `websocket.Accept`, under the
names the specification gives to the states of the delivery loop. -/
inductive HandlerPC where
  /-- Blocked in the `select` of line 124. -/
  | WAITING
  /-- A value `file` was received from `ws.C` (line 128); `ioutil.ReadFile(file)` is next. -/
  | READING_FILE (file : String)
  /-- The read returned `svg` without error; `c.Writer` (line 134) is next. -/
  | WRITING_MESSAGE (svg : Bytes)
  /-- The handler has returned and its deferred calls have run. -/
  | CLOSED
deriving DecidableEq, Repr

/-- How the write of lines 134-140 goes. -/
inductive WriteOutcome where
  /-- The call `c.Writer` returns an error (line 135). -/
  | writerErr (err : String)
  /-- The call `c.Writer` returns a writer; `fprintfOk` and `closeOk` say whether
  `fmt.Fprintf` (line 139) and `w.Close()` (line 140) return without error. -/
  | wrote (fprintfOk closeOk : Bool)
deriving DecidableEq, Repr

/-- The steps of one handler. -/
inductive HandlerAction where
  /-- The connection context becomes done (timeout, client close, shutdown). -/
  | cancel
  /-- The `select` takes `case <-ctx.Done()` (line 125). -/
  | selectDone
  /-- The `select` takes `case file := <-ws.C` (line 128). -/
  | recv (file : String)
  /-- The call `ioutil.ReadFile` returns (line 129). -/
  | readFile (result : Except String Bytes)
  /-- The write of the message (lines 134-140). -/
  | write (outcome : WriteOutcome)
deriving Repr

/-- State of one handler, with what it has done so far. -/
structure Handler where
  pc : HandlerPC
  /-- Whether `ctx.Done()` is closed. -/
  ctxDone : Bool
  /-- Status codes of the `c.Close` calls issued, oldest first. -/
  closes : List StatusCode
  /-- Paths given to `ioutil.ReadFile`, oldest first. -/
  reads : List String
  /-- Number of calls of `c.Writer`. -/
  writerCalls : Nat
  /-- Messages written and closed without error, oldest first. -/
  messages : List (MessageType × Bytes)
  /-- Number of `log.Println` calls. -/
  logged : Nat
deriving DecidableEq, Repr

/-- The handler right after `websocket.Accept` succeeded and the context was set up
(lines 111-121): it enters the loop. -/
def Handler.start : Handler :=
  { pc := .WAITING, ctxDone := false, closes := [], reads := [], writerCalls := 0,
    messages := [], logged := 0 }

/-- A `return` of the handler: the deferred calls run in reverse order, first
`cancel()` (line 119), then `c.Close(websocket.StatusInternalError, ...)` (line 116). -/
def Handler.ret (h : Handler) : Handler :=
  { h with pc := .CLOSED, ctxDone := true,
           closes := h.closes ++ [StatusCode.StatusInternalError] }

/-- One step of the handler; `none` when the step is not possible in the state. -/
def Handler.step (h : Handler) : HandlerAction → Option Handler
  | .cancel =>
    match h.pc with
    | .CLOSED => none
    | _ => if h.ctxDone then none else some { h with ctxDone := true }
  | .selectDone =>
    match h.pc with
    | .WAITING =>
      if h.ctxDone then
        some ({ h with closes := h.closes ++ [StatusCode.StatusNormalClosure] }).ret
      else none
    | _ => none
  | .recv file =>
    match h.pc with
    | .WAITING => some { h with pc := .READING_FILE file }
    | _ => none
  | .readFile result =>
    match h.pc with
    | .READING_FILE file =>
      match result with
      | .ok svg => some { h with pc := .WRITING_MESSAGE svg, reads := h.reads ++ [file] }
      | .error _ => some ({ h with reads := h.reads ++ [file], logged := h.logged + 1 }).ret
    | _ => none
  | .write outcome =>
    match h.pc with
    | .WRITING_MESSAGE svg =>
      match outcome with
      | .writerErr _ =>
        some ({ h with writerCalls := h.writerCalls + 1, logged := h.logged + 1 }).ret
      | .wrote fprintfOk closeOk =>
        some { h with
          pc := .WAITING
          writerCalls := h.writerCalls + 1
          messages :=
            if fprintfOk && closeOk then
              h.messages ++ [(MessageType.MessageText, fprintf svgFormat [svg])]
            else h.messages }
    | _ => none

/-- A sequence of steps of the handler; `none` as soon as one is not possible. -/
def Handler.run (h : Handler) : List HandlerAction → Option Handler
  | [] => some h
  | a :: rest => (h.step a).bind (fun h' => h'.run rest)

/-- Whether the action is the receipt of a notification. -/
def HandlerAction.isRecv : HandlerAction → Bool
  | .recv _ => true
  | _ => false

/-! ## The process: watcher, handlers and the channel `commC` -/

/-- State of the process: the watched path (lines 22 and 36), the watcher goroutine and
the handlers of the connections accepted so far. All handlers receive from the one
channel of the one `wsWriter` (lines 44 and 85-90). -/
structure System where
  fullPath : String
  watcher : Watcher
  conns : List Handler
deriving DecidableEq, Repr

/-- The steps of the process. -/
inductive SysAction where
  /-- The watcher's `select` receives an input. -/
  | fs (i : WatcherInput)
  /-- The channel `commC` is unbuffered: the watcher's pending send completes together with
  the receive of connection `k`, whose `select` takes the case of line 128. -/
  | deliver (k : Nat)
  /-- A request on `/ws` is upgraded and its handler enters the loop. -/
  | accept
  /-- A step of connection `k` on its own (anything but a receive from the channel). -/
  | conn (k : Nat) (a : HandlerAction)
deriving Repr

/-- The process when `main` has started the watcher goroutine, before any request. -/
def System.init (fullPath : String) : System :=
  { fullPath := fullPath, watcher := Watcher.start fullPath, conns := [] }

/-- One step of the process; `none` when the step is not possible in the state. -/
def System.step (s : System) : SysAction → Option System
  | .fs i =>
    match s.watcher.pc with
    | .selecting => some { s with watcher := s.watcher.recv s.fullPath i }
    | _ => none
  | .deliver k =>
    match s.watcher.pc with
    | .sending name =>
      match s.conns[k]? with
      | some h =>
        match h.step (.recv name) with
        | some h' => some { s with watcher := s.watcher.completeSend, conns := s.conns.set k h' }
        | none => none
      | none => none
    | _ => none
  | .accept => some { s with conns := s.conns ++ [Handler.start] }
  | .conn k a =>
    if a.isRecv then none
    else
      match s.conns[k]? with
      | some h =>
        match h.step a with
        | some h' => some { s with conns := s.conns.set k h' }
        | none => none
      | none => none

/-- A sequence of steps of the process; `none` as soon as one is not possible. -/
def System.run (s : System) : List SysAction → Option System
  | [] => some s
  | a :: rest => (s.step a).bind (fun s' => s'.run rest)

/-- Whether the step hands the watcher a qualifying event for the watched path. -/
def SysAction.isQualifying (fullPath : String) : SysAction → Bool
  | .fs (.event e) => (e.Has Write || e.Has Create) && e.Name == fullPath
  | _ => false

/-- Whether the step hands the watcher a filesystem event. -/
def SysAction.isFsEvent : SysAction → Bool
  | .fs (.event _) => true
  | _ => false

/-- Number of receives from the channel a handler has completed: one per read done,
and one more when it stands right before the read. -/
def Handler.received (h : Handler) : Nat :=
  h.reads.length + (match h.pc with | .READING_FILE _ => 1 | _ => 0)

/-- Number of file reads done by all connections together. -/
def System.totalReads (s : System) : Nat :=
  (s.conns.map (fun h => h.reads.length)).sum

/-- Number of receives from the channel completed by all connections together. -/
def System.totalReceived (s : System) : Nat :=
  (s.conns.map Handler.received).sum

/-- Number of sends the watcher has completed or is blocked in. -/
def Watcher.started (w : Watcher) : Nat :=
  w.sent.length + (match w.pc with | .sending _ => 1 | _ => 0)

/-- Whether the input is the closing of one of the watcher's two channels. -/
def WatcherInput.isClose : WatcherInput → Bool
  | .eventsClosed => true
  | .errorsClosed => true
  | _ => false

/-- The event of an input, when it is one. -/
def WatcherInput.toEvent : WatcherInput → Option Event
  | .event e => some e
  | _ => none

/-- The notifications the specification expects for a sequence of inputs: the path of
each qualifying event, in order. -/
def expectedNotifications (fullPath : String) (inputs : List WatcherInput) : List String :=
  ((inputs.filterMap WatcherInput.toEvent).filter (qualifying fullPath)).map Event.Name

/-- Whether the input is an error from `watcher.Errors`. -/
def WatcherInput.isError : WatcherInput → Bool
  | .error _ => true
  | _ => false


/-- Whether the action is one of the two failures after which the handler returns: a
failed file read (line 130) or a failed `c.Writer` (line 135). -/
def HandlerAction.isFailure : HandlerAction → Bool
  | .readFile (.error _) => true
  | .write (.writerErr _) => true
  | _ => false

/-- Whether the action is the `select` taking `case <-ctx.Done()`. -/
def HandlerAction.isSelectDone : HandlerAction → Bool
  | .selectDone => true
  | _ => false

/-- Number of steps a handler whose context is done is away from its return, at most,
when it receives no further notification. -/
def Handler.stepsToClose (h : Handler) : Nat :=
  match h.pc with
  | .READING_FILE _ => 3
  | .WRITING_MESSAGE _ => 2
  | .WAITING => 1
  | .CLOSED => 0

/-- Whether the action is a write for which `c.Writer` returned a writer. -/
def HandlerAction.isWrote : HandlerAction → Bool
  | .write (.wrote _ _) => true
  | _ => false

/-- Number of steps a handler whose context is done is away from its return, at most,
when `c.Writer` gives it no writer any more. -/
def Handler.stepsToReturn (h : Handler) : Nat :=
  match h.pc with
  | .WAITING => 3
  | .READING_FILE _ => 2
  | .WRITING_MESSAGE _ => 1
  | .CLOSED => 0

/-- One full delivery: a notification is received, the file is read and written out,
everything without error. -/
def delivery (file : String) (svg : Bytes) : List HandlerAction :=
  [.recv file, .readFile (.ok svg), .write (.wrote true true)]

/-- A number of full deliveries of the same content, one after the other. -/
def deliveries (file : String) (svg : Bytes) : Nat → List HandlerAction
  | 0 => []
  | n + 1 => delivery file svg ++ deliveries file svg n

/-- A run of the handler that ends with a failed file read. -/
def failedReadRun : List HandlerAction :=
  [.recv "/tmp/a.svg", .readFile (.error "no such file")]

/-- The state of the handler after `failedReadRun`. -/
def failedReadState : Handler :=
  { pc := .CLOSED, ctxDone := true, closes := [StatusCode.StatusInternalError],
    reads := ["/tmp/a.svg"], writerCalls := 0, messages := [], logged := 1 }

/-- A handler that has received a notification for `/tmp/a.svg` and stands before the read. -/
def readingState : Handler :=
  { Handler.start with pc := .READING_FILE "/tmp/a.svg" }

/-- A handler that has read the bytes of `<svg/>` and stands before the write. -/
def writingState : Handler :=
  { Handler.start with pc := .WRITING_MESSAGE "<svg/>".toUTF8.toList, reads := ["/tmp/a.svg"] }

/-- A handler in its `select` whose context is done: `Handler.start` after `cancel`. -/
def cancelledState : Handler :=
  { Handler.start with ctxDone := true }

/-- Number of messages a handler has written or stands right before writing. -/
def Handler.delivered (h : Handler) : Nat :=
  h.messages.length + (match h.pc with | .WRITING_MESSAGE _ => 1 | _ => 0)

/-- Number of messages written by all connections together. -/
def System.totalMessages (s : System) : Nat :=
  (s.conns.map (fun h => h.messages.length)).sum

/-- The invariant of the process: every completed send was received by exactly one
handler, and no handler has written more messages than it has read files. -/
def System.Inv (s : System) : Prop :=
  s.totalReceived = s.watcher.sent.length ∧ ∀ h ∈ s.conns, h.delivered ≤ h.reads.length

/-- A handler that has received nothing so far: it waits in its `select` or has returned,
and has read no file, called no writer and written no message. -/
def Handler.untouched (h : Handler) : Prop :=
  (h.pc = .WAITING ∨ h.pc = .CLOSED) ∧ h.reads = [] ∧ h.writerCalls = 0 ∧ h.messages = []

/-- The watcher has no send pending and connection `k` has received nothing so far. -/
def System.starved (s : System) (k : Nat) : Prop :=
  (∀ name, s.watcher.pc ≠ .sending name) ∧ ∃ h, s.conns[k]? = some h ∧ h.untouched

/-- Whether the step is a hand-over of a notification on the channel. -/
def SysAction.isDeliver : SysAction → Bool
  | .deliver _ => true
  | _ => false

/-- The bytes of `<svg/>`. -/
def svgBytes : Bytes := [60, 115, 118, 103, 47, 62]

/-- A handler in its `select` that has done nothing yet, as a literal. -/
def freshHandler : Handler :=
  { pc := .WAITING, ctxDone := false, closes := [], reads := [], writerCalls := 0,
    messages := [], logged := 0 }

/-- A handler back in its `select` after one full delivery of `<svg/>`, as a literal. -/
def servedHandler : Handler :=
  { pc := .WAITING, ctxDone := false, closes := [], reads := ["/tmp/a.svg"], writerCalls := 1,
    messages := [(MessageType.MessageText, svgBytes)], logged := 0 }

/-- A first viewer connects and is served the startup notification, then a second viewer
connects. -/
def secondViewerRun : List SysAction :=
  [.accept, .deliver 0, .conn 0 (.readFile (.ok svgBytes)), .conn 0 (.write (.wrote true true)),
    .accept]

/-- The state of the process after `secondViewerRun`. -/
def secondViewerState : System :=
  { fullPath := "/tmp/a.svg",
    watcher := { pc := .selecting, sent := ["/tmp/a.svg"], logged := [] },
    conns := [servedHandler, freshHandler] }

/-- Two viewers are connected and wait while the watcher is blocked in its first send. -/
def twoWaitingState : System :=
  { fullPath := "/tmp/a.svg",
    watcher := { pc := .sending "/tmp/a.svg", sent := [], logged := [] },
    conns := [freshHandler, freshHandler] }

/-- The state of the process after the first of two waiting viewers took the startup
notification. -/
def oneServedState : System :=
  { fullPath := "/tmp/a.svg",
    watcher := { pc := .selecting, sent := ["/tmp/a.svg"], logged := [] },
    conns := [{ freshHandler with pc := .READING_FILE "/tmp/a.svg" }, freshHandler] }

/-- Two viewers connect, the second one is served the startup notification, an error and
an event for another file arrive, the first viewer's context ends. -/
def twoViewersRun : List SysAction :=
  [.accept, .accept, .deliver 1, .conn 1 (.readFile (.ok svgBytes)),
    .conn 1 (.write (.wrote true true)), .fs (.error "queue overflow"),
    .fs (.event ⟨"/tmp/b.svg", 2⟩), .conn 0 .cancel]

/-- The state of the process after `twoViewersRun`. -/
def twoViewersState : System :=
  { fullPath := "/tmp/a.svg",
    watcher := { pc := .selecting, sent := ["/tmp/a.svg"], logged := ["error: queue overflow"] },
    conns := [{ freshHandler with ctxDone := true }, servedHandler] }

/-- The state of the process after a first viewer connected and was served the startup
notification. -/
def firstServedState : System :=
  { fullPath := "/tmp/a.svg",
    watcher := { pc := .selecting, sent := ["/tmp/a.svg"], logged := [] },
    conns := [servedHandler] }

/-- A first viewer connects and is served the startup notification. -/
def firstViewerRun : List SysAction :=
  [.accept, .deliver 0, .conn 0 (.readFile (.ok svgBytes)), .conn 0 (.write (.wrote true true))]
/-! ## The watcher goroutine: proofs -/

theorem has_write_eq_testBit (e : Event) : e.Has Write = e.Op.testBit 1 := by
  have h := Nat.and_two_pow e.Op 1
  simp only [Event.Has, Write]
  rw [show (2 : Nat) = 2 ^ 1 from rfl, h]
  cases e.Op.testBit 1 <;> simp

theorem has_create_eq_testBit (e : Event) : e.Has Create = e.Op.testBit 0 := by
  have h := Nat.and_two_pow e.Op 0
  simp only [Event.Has, Create]
  rw [show (1 : Nat) = 2 ^ 0 from rfl, h]
  cases e.Op.testBit 0 <;> simp

/-- The guard of lines 63-64 is the specification's notion of a qualifying event. -/
theorem guard_eq_qualifying (fullPath : String) (e : Event) :
    ((e.Has Write || e.Has Create) && e.Name == fullPath) = qualifying fullPath e := by
  rw [has_write_eq_testBit, has_create_eq_testBit, qualifying, Bool.and_comm]
  congr 1

/-- One round of the loop in the `select`, the send taken at once. -/
theorem round_event (fullPath : String) (w : Watcher) (e : Event) (hw : w.pc = .selecting) :
    ((w.recv fullPath (.event e)).completeSend).pc = .selecting ∧
    ((w.recv fullPath (.event e)).completeSend).sent =
      w.sent ++ (if qualifying fullPath e then [fullPath] else []) := by
  rw [← guard_eq_qualifying]
  by_cases h1 : (e.Has Write || e.Has Create) = true
  · by_cases h2 : e.Name = fullPath
    · simp [Watcher.recv, Watcher.completeSend, hw, h1, h2]
    · simp [Watcher.recv, Watcher.completeSend, hw, h1, h2]
  · simp [Watcher.recv, Watcher.completeSend, hw, h1]

theorem round_error (fullPath : String) (w : Watcher) (err : String) (hw : w.pc = .selecting) :
    ((w.recv fullPath (.error err)).completeSend).pc = .selecting ∧
    ((w.recv fullPath (.error err)).completeSend).sent = w.sent := by
  simp [Watcher.recv, Watcher.completeSend, hw]

theorem round_returned (fullPath : String) (w : Watcher) (i : WatcherInput)
    (hw : w.pc = .returned) : (w.recv fullPath i).completeSend = w := by
  simp [Watcher.recv, Watcher.completeSend, hw]

theorem round_close (fullPath : String) (w : Watcher) (i : WatcherInput)
    (hw : w.pc = .selecting) (hi : i.isClose = true) :
    ((w.recv fullPath i).completeSend).pc = .returned := by
  cases i <;> simp_all [Watcher.recv, Watcher.completeSend, WatcherInput.isClose]

theorem loop_returned (fullPath : String) (inputs : List WatcherInput) (w : Watcher)
    (hw : w.pc = .returned) :
    inputs.foldl (fun w i => (w.recv fullPath i).completeSend) w = w := by
  induction inputs with
  | nil => rfl
  | cons i rest ih => simp only [List.foldl_cons, round_returned fullPath w i hw, ih]

theorem expectedNotifications_cons_event (fullPath : String) (e : Event)
    (rest : List WatcherInput) :
    expectedNotifications fullPath (.event e :: rest) =
      (if qualifying fullPath e then [fullPath] else []) ++ expectedNotifications fullPath rest := by
  by_cases h : qualifying fullPath e = true
  · have hn : e.Name = fullPath := by
      simp only [qualifying, Bool.and_eq_true, decide_eq_true_eq] at h
      exact h.1
    simp [expectedNotifications, WatcherInput.toEvent, h, hn]
  · simp [expectedNotifications, WatcherInput.toEvent, h]

theorem expectedNotifications_cons_error (fullPath : String) (err : String)
    (rest : List WatcherInput) :
    expectedNotifications fullPath (.error err :: rest) = expectedNotifications fullPath rest := by
  simp [expectedNotifications, WatcherInput.toEvent]

/-- Invariant of the loop while both channels stay open. -/
theorem loop_open (fullPath : String) (inputs : List WatcherInput) :
    ∀ w : Watcher, w.pc = .selecting → (∀ i ∈ inputs, i.isClose = false) →
      (inputs.foldl (fun w i => (w.recv fullPath i).completeSend) w).pc = .selecting ∧
      (inputs.foldl (fun w i => (w.recv fullPath i).completeSend) w).sent =
        w.sent ++ expectedNotifications fullPath inputs := by
  induction inputs with
  | nil => intro w hw _; simp [hw, expectedNotifications]
  | cons i rest ih =>
    intro w hw hopen
    have hrest : ∀ j ∈ rest, j.isClose = false := fun j hj => hopen j (List.mem_cons_of_mem _ hj)
    have hi : i.isClose = false := hopen i (List.mem_cons_self _ _)
    cases i with
    | event e =>
      obtain ⟨h1, h2⟩ := round_event fullPath w e hw
      obtain ⟨h3, h4⟩ := ih _ h1 hrest
      refine ⟨h3, ?_⟩
      rw [List.foldl_cons, h4, h2, expectedNotifications_cons_event, List.append_assoc]
    | error err =>
      obtain ⟨h1, h2⟩ := round_error fullPath w err hw
      obtain ⟨h3, h4⟩ := ih _ h1 hrest
      refine ⟨h3, ?_⟩
      rw [List.foldl_cons, h4, h2, expectedNotifications_cons_error]
    | eventsClosed => simp [WatcherInput.isClose] at hi
    | errorsClosed => simp [WatcherInput.isClose] at hi

/-- The loop has returned exactly when one of the channels was seen closed. -/
theorem loop_returned_iff (fullPath : String) (inputs : List WatcherInput) :
    ∀ w : Watcher, w.pc = .selecting →
      ((inputs.foldl (fun w i => (w.recv fullPath i).completeSend) w).pc = .returned ↔
        ∃ i ∈ inputs, i.isClose = true) := by
  induction inputs with
  | nil => intro w hw; simp [hw]
  | cons i rest ih =>
    intro w hw
    by_cases hi : i.isClose = true
    · have h1 := round_close fullPath w i hw hi
      rw [List.foldl_cons, loop_returned fullPath rest _ h1]
      exact ⟨fun _ => ⟨i, List.mem_cons_self _ _, hi⟩, fun _ => h1⟩
    · have h1 : ((w.recv fullPath i).completeSend).pc = .selecting := by
        cases i with
        | event e => exact (round_event fullPath w e hw).1
        | error err => exact (round_error fullPath w err hw).1
        | eventsClosed => simp [WatcherInput.isClose] at hi
        | errorsClosed => simp [WatcherInput.isClose] at hi
      rw [List.foldl_cons, ih _ h1]
      constructor
      · rintro ⟨j, hj, hc⟩
        exact ⟨j, List.mem_cons_of_mem _ hj, hc⟩
      · rintro ⟨j, hj, hc⟩
        rcases List.mem_cons.mp hj with rfl | hj
        · exact absurd hc hi
        · exact ⟨j, hj, hc⟩

theorem start_completeSend (fullPath : String) :
    (Watcher.start fullPath).completeSend =
      { pc := .selecting, sent := [fullPath], logged := [] } := by
  simp [Watcher.start, Watcher.completeSend]

theorem expectedNotifications_events (fullPath : String) (events : List Event) :
    expectedNotifications fullPath (events.map WatcherInput.event) =
      (events.filter (qualifying fullPath)).map Event.Name := by
  have : (events.map WatcherInput.event).filterMap WatcherInput.toEvent = events := by
    induction events with
    | nil => rfl
    | cons e rest ih => simp [WatcherInput.toEvent, ih]
  simp [expectedNotifications, this]

theorem expectedNotifications_drop_errors (fullPath : String) (inputs : List WatcherInput) :
    expectedNotifications fullPath (inputs.filter (fun i => !i.isError)) =
      expectedNotifications fullPath inputs := by
  induction inputs with
  | nil => rfl
  | cons i rest ih =>
    cases i with
    | event e =>
      rw [List.filter_cons_of_pos (by rfl), expectedNotifications_cons_event,
        expectedNotifications_cons_event, ih]
    | error err =>
      rw [List.filter_cons_of_neg (by simp [WatcherInput.isError]),
        expectedNotifications_cons_error, ih]
    | eventsClosed =>
      rw [List.filter_cons_of_pos (by rfl)]
      simpa [expectedNotifications, WatcherInput.toEvent] using ih
    | errorsClosed =>
      rw [List.filter_cons_of_pos (by rfl)]
      simpa [expectedNotifications, WatcherInput.toEvent] using ih

theorem expectedNotifications_all_fullPath (fullPath : String) (inputs : List WatcherInput) :
    ∀ n ∈ expectedNotifications fullPath inputs, n = fullPath := by
  intro n hn
  simp only [expectedNotifications, List.mem_map, List.mem_filter] at hn
  obtain ⟨e, ⟨_, hq⟩, rfl⟩ := hn
  simp only [qualifying, Bool.and_eq_true, decide_eq_true_eq] at hq
  exact hq.1

/-- Claim C1. For every finite sequence of events received from `watcher.Events`, with
every send on `commC` taken by a receiver, the values the watcher goroutine sends are the
watched path once, followed in event order by the path of each qualifying event (path
equal to the watched path, Write or Create bit set) and by nothing for any other event;
there is one notification per qualifying event, every value sent is the watched path, and
the goroutine is back in its `select`. -/
theorem watcher_sends_initial_then_one_per_qualifying_event (fullPath : String)
    (events : List Event) :
    (watcherGoroutine fullPath (events.map WatcherInput.event)).sent =
        fullPath :: (events.filter (qualifying fullPath)).map Event.Name
    ∧ (watcherGoroutine fullPath (events.map WatcherInput.event)).sent.length =
        1 + events.countP (qualifying fullPath)
    ∧ (∀ n ∈ (watcherGoroutine fullPath (events.map WatcherInput.event)).sent, n = fullPath)
    ∧ (watcherGoroutine fullPath (events.map WatcherInput.event)).pc = .selecting := by
  have hopen : ∀ i ∈ events.map WatcherInput.event, i.isClose = false := by
    intro i hi
    obtain ⟨e, _, rfl⟩ := List.mem_map.mp hi
    rfl
  obtain ⟨hpc, hsent⟩ := loop_open fullPath (events.map WatcherInput.event)
    (Watcher.start fullPath).completeSend (by simp [start_completeSend]) hopen
  have hs : (watcherGoroutine fullPath (events.map WatcherInput.event)).sent =
      fullPath :: (events.filter (qualifying fullPath)).map Event.Name := by
    rw [watcherGoroutine, hsent, start_completeSend, expectedNotifications_events]
    rfl
  refine ⟨hs, ?_, ?_, hpc⟩
  · rw [hs, List.length_cons, List.length_map, List.countP_eq_length_filter, Nat.add_comm]
  · intro n hn
    rw [hs] at hn
    rcases List.mem_cons.mp hn with rfl | hn
    · rfl
    · rw [← expectedNotifications_events] at hn
      exact expectedNotifications_all_fullPath fullPath _ n hn

/-- Claim C8. Errors received from `watcher.Errors` neither stop the watcher goroutine
nor make it send: the goroutine has returned exactly when one of its two channels was
seen closed, and for every interleaving of events and errors with both channels open it
is still in its `select` and has sent what it sends for the same inputs with the errors
removed. -/
theorem watcher_survives_errors (fullPath : String) (inputs : List WatcherInput) :
    ((watcherGoroutine fullPath inputs).pc = .returned ↔ ∃ i ∈ inputs, i.isClose = true)
    ∧ ((∀ i ∈ inputs, i.isClose = false) →
        (watcherGoroutine fullPath inputs).pc = .selecting
        ∧ (watcherGoroutine fullPath inputs).sent =
            (watcherGoroutine fullPath (inputs.filter (fun i => !i.isError))).sent) := by
  refine ⟨loop_returned_iff fullPath inputs _ (by simp [start_completeSend]), ?_⟩
  intro hopen
  have hopen2 : ∀ i ∈ inputs.filter (fun i => !i.isError), i.isClose = false :=
    fun i hi => hopen i (List.mem_filter.mp hi).1
  obtain ⟨hpc, hsent⟩ := loop_open fullPath inputs
    (Watcher.start fullPath).completeSend (by simp [start_completeSend]) hopen
  obtain ⟨_, hsent2⟩ := loop_open fullPath (inputs.filter (fun i => !i.isError))
    (Watcher.start fullPath).completeSend (by simp [start_completeSend]) hopen2
  refine ⟨hpc, ?_⟩
  rw [watcherGoroutine, watcherGoroutine, hsent, hsent2, expectedNotifications_drop_errors]

/-- Witness of claim C8 on an interleaving of two errors and two events. -/
theorem watcher_survives_errors_witness :
    (∀ i ∈ [WatcherInput.error "queue overflow", .event ⟨"/tmp/a.svg", 2⟩,
        .error "again", .event ⟨"/tmp/b.svg", 2⟩], i.isClose = false)
    ∧ ((watcherGoroutine "/tmp/a.svg" [.error "queue overflow", .event ⟨"/tmp/a.svg", 2⟩,
          .error "again", .event ⟨"/tmp/b.svg", 2⟩]).pc = .selecting
      ∧ (watcherGoroutine "/tmp/a.svg" [.error "queue overflow", .event ⟨"/tmp/a.svg", 2⟩,
          .error "again", .event ⟨"/tmp/b.svg", 2⟩]).sent =
        (watcherGoroutine "/tmp/a.svg" ([.error "queue overflow", .event ⟨"/tmp/a.svg", 2⟩,
          .error "again", .event ⟨"/tmp/b.svg", 2⟩].filter (fun i => !i.isError))).sent) :=
  ⟨by decide, (watcher_survives_errors "/tmp/a.svg" [.error "queue overflow",
    .event ⟨"/tmp/a.svg", 2⟩, .error "again", .event ⟨"/tmp/b.svg", 2⟩]).2 (by decide)⟩

/-! ## wsWriter.handler: proofs -/

/-- The format `"%s"` applied to a byte slice writes exactly its bytes. -/
theorem fprintf_svgFormat (svg : Bytes) : fprintf svgFormat [svg] = svg := by
  simp [fprintf, svgFormat]

/-- No step leaves the state in which the handler has returned. -/
theorem step_closed (h : Handler) (a : HandlerAction) (hc : h.pc = .CLOSED) :
    h.step a = none := by
  cases a <;> simp [Handler.step, hc]

theorem run_closed (h h' : Handler) (acts : List HandlerAction) (hc : h.pc = .CLOSED)
    (hr : h.run acts = some h') : acts = [] ∧ h' = h := by
  cases acts with
  | nil => simpa [Handler.run, eq_comm] using hr
  | cons a rest => simp [Handler.run, step_closed h a hc] at hr

/-- What one step does to the log of `c.Close` calls, from a state that is still in the
loop and has closed nothing. -/
theorem step_closes (h h' : Handler) (a : HandlerAction)
    (hcl : h.closes = []) (hs : h.step a = some h') :
    (h'.pc ≠ .CLOSED ∧ h'.closes = [])
    ∨ (h'.pc = .CLOSED ∧ a.isSelectDone = true ∧
        h'.closes = [StatusCode.StatusNormalClosure, StatusCode.StatusInternalError])
    ∨ (h'.pc = .CLOSED ∧ a.isFailure = true ∧ h'.closes = [StatusCode.StatusInternalError]) := by
  cases a with
  | cancel =>
    cases hp : h.pc <;> simp [Handler.step, hp] at hs
    all_goals
      obtain ⟨_, rfl⟩ := hs
      simp [hp, hcl]
  | selectDone =>
    cases hp : h.pc <;> simp [Handler.step, hp] at hs
    obtain ⟨_, rfl⟩ := hs
    simp [Handler.ret, hcl, HandlerAction.isSelectDone]
  | recv file =>
    cases hp : h.pc <;> simp [Handler.step, hp] at hs
    subst hs
    simp [hcl]
  | readFile result =>
    cases hp : h.pc <;> simp [Handler.step, hp] at hs
    cases result with
    | ok svg =>
      simp at hs
      subst hs
      simp [hcl]
    | error err =>
      simp at hs
      subst hs
      simp [Handler.ret, hcl, HandlerAction.isFailure]
  | write outcome =>
    cases hp : h.pc <;> simp [Handler.step, hp] at hs
    cases outcome with
    | writerErr err =>
      simp at hs
      subst hs
      simp [Handler.ret, hcl, HandlerAction.isFailure]
    | wrote fprintfOk closeOk =>
      simp at hs
      subst hs
      simp [hcl]

/-- Invariant of the handler on the log of `c.Close` calls. -/
theorem run_closes (acts : List HandlerAction) :
    ∀ h h' : Handler, h.pc ≠ .CLOSED → h.closes = [] → h.run acts = some h' →
      (h'.pc ≠ .CLOSED ∧ h'.closes = [])
      ∨ (h'.pc = .CLOSED ∧ (acts.getLast?.map HandlerAction.isSelectDone) = some true ∧
          h'.closes = [StatusCode.StatusNormalClosure, StatusCode.StatusInternalError])
      ∨ (h'.pc = .CLOSED ∧ (acts.getLast?.map HandlerAction.isFailure) = some true ∧
          h'.closes = [StatusCode.StatusInternalError]) := by
  induction acts with
  | nil =>
    intro h h' hpc hcl hr
    simp only [Handler.run, Option.some.injEq] at hr
    subst hr
    exact Or.inl ⟨hpc, hcl⟩
  | cons a rest ih =>
    intro h h' hpc hcl hr
    cases hs : h.step a with
    | none => simp [Handler.run, hs] at hr
    | some h1 =>
      simp only [Handler.run, hs, Option.some_bind] at hr
      by_cases hc : h1.pc = .CLOSED
      · obtain ⟨hnil, rfl⟩ := run_closed h1 h' rest hc hr
        subst hnil
        rcases step_closes h h' a hcl hs with h1 | h2 | h3
        · exact absurd hc h1.1
        · exact Or.inr (Or.inl ⟨h2.1, by simp [h2.2.1], h2.2.2⟩)
        · exact Or.inr (Or.inr ⟨h3.1, by simp [h3.2.1], h3.2.2⟩)
      · have hcl1 : h1.closes = [] := by
          rcases step_closes h h1 a hcl hs with h1' | h2 | h3
          · exact h1'.2
          · exact absurd h2.1 hc
          · exact absurd h3.1 hc
        cases rest with
        | nil =>
          simp only [Handler.run, Option.some.injEq] at hr
          subst hr
          exact Or.inl ⟨hc, hcl1⟩
        | cons b rest' =>
          have := ih h1 h' hc hcl1 hr
          simpa [List.getLast?_cons_cons] using this

/-- Counterexample to claim C4 as stated. When the context is done and the `select`
takes that case, the handler calls `c.Close` with StatusNormalClosure (line 126) and the
deferred `c.Close` with StatusInternalError (line 116) runs on the return: two calls, not
one. -/
theorem ctx_done_exit_issues_two_closes :
    ∃ h, Handler.start.run [.cancel, .selectDone] = some h ∧ h.pc = .CLOSED ∧
      h.closes = [StatusCode.StatusNormalClosure, StatusCode.StatusInternalError] ∧
      h.closes.length ≠ 1 :=
  ⟨_, rfl, rfl, rfl, by decide⟩

/-- Claim C4, amended. On every run of the handler after a successful upgrade: as long
as it has not returned it has issued no `c.Close`; when it has returned through the
done context it has issued two, StatusNormalClosure first and then the deferred
StatusInternalError; when it has returned through a failed read or a failed `c.Writer` it
has issued exactly one, with StatusInternalError. So at least one close is always
issued and the first one carries the status of the cause. -/
theorem handler_close_calls (acts : List HandlerAction) (h' : Handler)
    (hr : Handler.start.run acts = some h') :
    (h'.pc ≠ .CLOSED ∧ h'.closes = [])
    ∨ (h'.pc = .CLOSED ∧ (acts.getLast?.map HandlerAction.isSelectDone) = some true ∧
        h'.closes = [StatusCode.StatusNormalClosure, StatusCode.StatusInternalError])
    ∨ (h'.pc = .CLOSED ∧ (acts.getLast?.map HandlerAction.isFailure) = some true ∧
        h'.closes = [StatusCode.StatusInternalError]) :=
  run_closes acts Handler.start h' (by simp [Handler.start]) rfl hr

/-- Witness of the amended claim C4 on a run that ends with a failed file read. -/
theorem handler_close_calls_witness :
    Handler.start.run failedReadRun = some failedReadState
    ∧ ((failedReadState.pc ≠ .CLOSED ∧ failedReadState.closes = [])
      ∨ (failedReadState.pc = .CLOSED
          ∧ (failedReadRun.getLast?.map HandlerAction.isSelectDone) = some true
          ∧ failedReadState.closes =
              [StatusCode.StatusNormalClosure, StatusCode.StatusInternalError])
      ∨ (failedReadState.pc = .CLOSED
          ∧ (failedReadRun.getLast?.map HandlerAction.isFailure) = some true
          ∧ failedReadState.closes = [StatusCode.StatusInternalError])) :=
  ⟨rfl, handler_close_calls failedReadRun failedReadState rfl⟩

/-- Claim C5, the code at the failing inputs. When `c.Writer` returns an error the
handler returns; but when `c.Writer` succeeds and `fmt.Fprintf` or `w.Close()` fails, the
error is dropped (lines 139-140): the handler is back in its `select`, has closed
nothing, has logged nothing and takes the next notification. -/
theorem write_error_after_writer_is_ignored :
    (∃ h, Handler.start.run [.recv "/tmp/a.svg", .readFile (.ok [60, 115, 118, 103, 47, 62]),
        .write (.writerErr "closed")] = some h ∧ h.pc = .CLOSED)
    ∧ (∃ h, Handler.start.run [.recv "/tmp/a.svg", .readFile (.ok [60, 115, 118, 103, 47, 62]),
        .write (.wrote false true)] = some h ∧ h.pc = .WAITING ∧ h.closes = [] ∧
        h.logged = 0 ∧ h.messages = [] ∧
        (h.step (.recv "/tmp/a.svg")).map Handler.pc = some (.READING_FILE "/tmp/a.svg"))
    ∧ (∃ h, Handler.start.run [.recv "/tmp/a.svg", .readFile (.ok [60, 115, 118, 103, 47, 62]),
        .write (.wrote true false)] = some h ∧ h.pc = .WAITING ∧ h.closes = [] ∧
        h.logged = 0 ∧ h.messages = [] ∧
        (h.step (.recv "/tmp/a.svg")).map Handler.pc = some (.READING_FILE "/tmp/a.svg")) :=
  ⟨⟨_, rfl, rfl⟩, ⟨_, rfl, rfl, rfl, rfl, rfl, rfl⟩, ⟨_, rfl, rfl, rfl, rfl, rfl, rfl⟩⟩

/-- Claim C6. When the read of the notified path fails, the handler takes the step,
logs once and has returned: that one read is the only one added, no `c.Writer` call and
no message is added, no step is possible afterwards, so no second read and no further
notification. -/
theorem read_failure_terminates (h : Handler) (file err : String)
    (hpc : h.pc = .READING_FILE file) :
    ∃ h', h.step (.readFile (.error err)) = some h'
      ∧ h'.pc = .CLOSED
      ∧ h'.logged = h.logged + 1
      ∧ h'.reads = h.reads ++ [file]
      ∧ h'.writerCalls = h.writerCalls
      ∧ h'.messages = h.messages
      ∧ (∀ a, h'.step a = none)
      ∧ (∀ acts h'', h'.run acts = some h'' → acts = [] ∧ h'' = h') := by
  refine ⟨({ h with reads := h.reads ++ [file], logged := h.logged + 1 }).ret,
    by simp only [Handler.step, hpc], rfl, rfl, rfl, rfl, rfl, ?_, ?_⟩
  · intro a
    exact step_closed _ a rfl
  · intro acts h'' hr
    exact run_closed _ h'' acts rfl hr

/-- Witness of claim C6 on a handler that was notified of `/tmp/a.svg`. -/
theorem read_failure_terminates_witness :
    readingState.pc = .READING_FILE "/tmp/a.svg"
    ∧ ∃ h', readingState.step (.readFile (.error "no such file")) = some h'
      ∧ h'.pc = .CLOSED
      ∧ h'.logged = readingState.logged + 1
      ∧ h'.reads = readingState.reads ++ ["/tmp/a.svg"]
      ∧ h'.writerCalls = readingState.writerCalls
      ∧ h'.messages = readingState.messages
      ∧ (∀ a, h'.step a = none)
      ∧ (∀ acts h'', h'.run acts = some h'' → acts = [] ∧ h'' = h') :=
  ⟨rfl, read_failure_terminates readingState "/tmp/a.svg" "no such file" rfl⟩

/-- Claim C7. When `c.Writer`, `fmt.Fprintf` and `w.Close()` succeed, the write adds
exactly one message, of type text, whose payload is the bytes the read returned, whatever
they are; and two deliveries in a row that read the same bytes add two equal messages. -/
theorem delivery_is_verbatim (h : Handler) (svg : Bytes) (hpc : h.pc = .WRITING_MESSAGE svg) :
    (∃ h', h.step (.write (.wrote true true)) = some h'
      ∧ h'.messages = h.messages ++ [(MessageType.MessageText, svg)]
      ∧ h'.writerCalls = h.writerCalls + 1
      ∧ h'.pc = .WAITING
      ∧ ∀ file, ∃ h'', h'.run (delivery file svg) = some h''
          ∧ h''.messages =
              h.messages ++ [(MessageType.MessageText, svg), (MessageType.MessageText, svg)]) := by
  refine ⟨{ h with pc := .WAITING, writerCalls := h.writerCalls + 1,
                     messages := h.messages ++ [(MessageType.MessageText, svg)] },
    by simp [Handler.step, hpc, fprintf_svgFormat], rfl, rfl, rfl, ?_⟩
  intro file
  simp [delivery, Handler.run, Handler.step, fprintf_svgFormat]

/-- Witness of claim C7 on a handler that has read the bytes of `<svg/>`. -/
theorem delivery_is_verbatim_witness :
    writingState.pc = .WRITING_MESSAGE "<svg/>".toUTF8.toList
    ∧ (∃ h', writingState.step (.write (.wrote true true)) = some h'
      ∧ h'.messages =
          writingState.messages ++ [(MessageType.MessageText, "<svg/>".toUTF8.toList)]
      ∧ h'.writerCalls = writingState.writerCalls + 1
      ∧ h'.pc = .WAITING
      ∧ ∀ file, ∃ h'', h'.run (delivery file "<svg/>".toUTF8.toList) = some h''
          ∧ h''.messages =
              writingState.messages ++ [(MessageType.MessageText, "<svg/>".toUTF8.toList),
                (MessageType.MessageText, "<svg/>".toUTF8.toList)]) :=
  ⟨rfl, delivery_is_verbatim writingState "<svg/>".toUTF8.toList rfl⟩

theorem run_append (h : Handler) (xs ys : List HandlerAction) :
    h.run (xs ++ ys) = (h.run xs).bind (fun h' => h'.run ys) := by
  induction xs generalizing h with
  | nil => simp [Handler.run]
  | cons a rest ih =>
    cases hs : h.step a with
    | none => simp [Handler.run, hs]
    | some h1 => simp [Handler.run, hs, ih]

/-- A handler in its `select` can take any number of deliveries, done context or not. -/
theorem run_deliveries (file : String) (svg : Bytes) (n : Nat) :
    ∀ h : Handler, h.pc = .WAITING →
      ∃ h', h.run (deliveries file svg n) = some h' ∧ h'.pc = .WAITING ∧
        h'.ctxDone = h.ctxDone ∧ h'.closes = h.closes := by
  induction n with
  | zero => intro h hpc; exact ⟨h, rfl, hpc, rfl, rfl⟩
  | succ n ih =>
    intro h hpc
    obtain ⟨h', hr, h1, h2, h3⟩ := ih
      { h with pc := .WAITING, reads := h.reads ++ [file], writerCalls := h.writerCalls + 1,
               messages := h.messages ++ [(MessageType.MessageText, svg)] } rfl
    refine ⟨h', ?_, h1, h2, h3⟩
    rw [deliveries, run_append]
    simpa [delivery, Handler.run, Handler.step, hpc, fprintf_svgFormat] using hr

theorem length_deliveries (file : String) (svg : Bytes) (n : Nat) :
    (deliveries file svg n).length = 3 * n := by
  induction n with
  | zero => rfl
  | succ n ih => simp [deliveries, delivery, ih]; omega

/-- Counterexample to claim C9 as stated. A handler whose context is done and that
waits in its `select` can take the notification case instead of the done case: after
one full delivery it is in the same `select` again, still open; so no number of steps
bounds its way to the return while notifications keep arriving. -/
theorem ctx_done_handler_need_not_close :
    (∃ h, Handler.start.run (.cancel :: delivery "/tmp/a.svg" [60, 115, 118, 103, 47, 62]) = some h
      ∧ h.ctxDone = true ∧ h.pc = .WAITING ∧ h.closes = [])
    ∧ ¬ ∃ bound : Nat, ∀ (acts : List HandlerAction) (h' : Handler),
        cancelledState.run acts = some h' → bound ≤ acts.length → h'.pc = .CLOSED := by
  refine ⟨⟨_, rfl, rfl, rfl, rfl⟩, ?_⟩
  rintro ⟨bound, hb⟩
  obtain ⟨h', hr, hpc, _, _⟩ := run_deliveries "/tmp/a.svg" [] bound cancelledState rfl
  have := hb _ h' hr (by rw [length_deliveries]; omega)
  rw [hpc] at this
  exact HandlerPC.noConfusion this

/-- With the context done, a step other than the receipt of a notification brings the
handler closer to its return and leaves the context done. -/
theorem step_towards_close (h h' : Handler) (a : HandlerAction) (hd : h.ctxDone = true)
    (ha : a.isRecv = false) (hs : h.step a = some h') :
    h'.ctxDone = true ∧ h'.stepsToClose < h.stepsToClose := by
  cases a with
  | cancel => cases hp : h.pc <;> simp [Handler.step, hp, hd] at hs
  | selectDone =>
    cases hp : h.pc <;> simp [Handler.step, hp, hd] at hs
    subst hs
    simp [Handler.ret, Handler.stepsToClose, hp]
  | recv file => simp [HandlerAction.isRecv] at ha
  | readFile result =>
    cases hp : h.pc <;> simp [Handler.step, hp] at hs
    cases result with
    | ok svg =>
      simp at hs
      subst hs
      simp [Handler.stepsToClose, hp, hd]
    | error err =>
      simp at hs
      subst hs
      simp [Handler.ret, Handler.stepsToClose, hp]
  | write outcome =>
    cases hp : h.pc <;> simp [Handler.step, hp] at hs
    cases outcome with
    | writerErr err =>
      simp at hs
      subst hs
      simp [Handler.ret, Handler.stepsToClose, hp]
    | wrote fprintfOk closeOk =>
      simp at hs
      subst hs
      simp [Handler.stepsToClose, hp, hd]

theorem run_towards_close (acts : List HandlerAction) :
    ∀ h h' : Handler, h.ctxDone = true → (∀ a ∈ acts, a.isRecv = false) →
      h.run acts = some h' →
      h'.ctxDone = true ∧ acts.length + h'.stepsToClose ≤ h.stepsToClose := by
  induction acts with
  | nil =>
    intro h h' hd _ hr
    simp only [Handler.run, Option.some.injEq] at hr
    subst hr
    exact ⟨hd, by simp⟩
  | cons a rest ih =>
    intro h h' hd hno hr
    cases hs : h.step a with
    | none => simp [Handler.run, hs] at hr
    | some h1 =>
      simp only [Handler.run, hs, Option.some_bind] at hr
      obtain ⟨hd1, hlt⟩ := step_towards_close h h1 a hd (hno a (List.mem_cons_self _ _)) hs
      obtain ⟨hd', hle⟩ := ih h1 h' hd1 (fun b hb => hno b (List.mem_cons_of_mem _ hb)) hr
      refine ⟨hd', ?_⟩
      simp only [List.length_cons]
      omega

/-- With the context done, a step other than a write with a writer brings the handler
closer to its return and leaves the context done. -/
theorem step_towards_return (h h' : Handler) (a : HandlerAction) (hd : h.ctxDone = true)
    (ha : a.isWrote = false) (hs : h.step a = some h') :
    h'.ctxDone = true ∧ h'.stepsToReturn < h.stepsToReturn := by
  cases a with
  | cancel => cases hp : h.pc <;> simp [Handler.step, hp, hd] at hs
  | selectDone =>
    cases hp : h.pc <;> simp [Handler.step, hp, hd] at hs
    subst hs
    simp [Handler.ret, Handler.stepsToReturn, hp]
  | recv file =>
    cases hp : h.pc <;> simp [Handler.step, hp] at hs
    subst hs
    simp [Handler.stepsToReturn, hp, hd]
  | readFile result =>
    cases hp : h.pc <;> simp [Handler.step, hp] at hs
    cases result with
    | ok svg =>
      simp at hs
      subst hs
      simp [Handler.stepsToReturn, hp, hd]
    | error err =>
      simp at hs
      subst hs
      simp [Handler.ret, Handler.stepsToReturn, hp]
  | write outcome =>
    cases hp : h.pc <;> simp [Handler.step, hp] at hs
    cases outcome with
    | writerErr err =>
      simp at hs
      subst hs
      simp [Handler.ret, Handler.stepsToReturn, hp]
    | wrote fprintfOk closeOk => simp [HandlerAction.isWrote] at ha

theorem run_towards_return (acts : List HandlerAction) :
    ∀ h h' : Handler, h.ctxDone = true → (∀ a ∈ acts, a.isWrote = false) →
      h.run acts = some h' →
      h'.ctxDone = true ∧ acts.length + h'.stepsToReturn ≤ h.stepsToReturn := by
  induction acts with
  | nil =>
    intro h h' hd _ hr
    simp only [Handler.run, Option.some.injEq] at hr
    subst hr
    exact ⟨hd, by simp⟩
  | cons a rest ih =>
    intro h h' hd hno hr
    cases hs : h.step a with
    | none => simp [Handler.run, hs] at hr
    | some h1 =>
      simp only [Handler.run, hs, Option.some_bind] at hr
      obtain ⟨hd1, hlt⟩ := step_towards_return h h1 a hd (hno a (List.mem_cons_self _ _)) hs
      obtain ⟨hd', hle⟩ := ih h1 h' hd1 (fun b hb => hno b (List.mem_cons_of_mem _ hb)) hr
      refine ⟨hd', ?_⟩
      simp only [List.length_cons]
      omega

/-- With the context done, a handler that has not returned has a step to take that is
neither the receipt of a notification nor a write with a writer. -/
theorem progress_when_done (h : Handler) (hd : h.ctxDone = true) (hpc : h.pc ≠ .CLOSED) :
    ∃ a h', a.isRecv = false ∧ a.isWrote = false ∧ h.step a = some h' := by
  cases hp : h.pc with
  | WAITING =>
    exact ⟨.selectDone, ({ h with closes := h.closes ++ [StatusCode.StatusNormalClosure] }).ret,
      rfl, rfl, by simp [Handler.step, hp, hd]⟩
  | READING_FILE file =>
    exact ⟨.readFile (.error ""),
      ({ h with reads := h.reads ++ [file], logged := h.logged + 1 }).ret, rfl, rfl,
      by simp [Handler.step, hp]⟩
  | WRITING_MESSAGE svg =>
    exact ⟨.write (.writerErr ""),
      ({ h with writerCalls := h.writerCalls + 1, logged := h.logged + 1 }).ret, rfl, rfl,
      by simp [Handler.step, hp]⟩
  | CLOSED => exact absurd hp hpc

theorem stepsToClose_le (h : Handler) : h.stepsToClose ≤ 3 := by
  cases hp : h.pc <;> simp [Handler.stepsToClose, hp]

theorem stepsToClose_eq_zero (h : Handler) (hz : h.stepsToClose = 0) : h.pc = .CLOSED := by
  cases hp : h.pc <;> simp [Handler.stepsToClose, hp] at hz
  rfl

theorem stepsToReturn_le (h : Handler) : h.stepsToReturn ≤ 3 := by
  cases hp : h.pc <;> simp [Handler.stepsToReturn, hp]

theorem stepsToReturn_eq_zero (h : Handler) (hz : h.stepsToReturn = 0) : h.pc = .CLOSED := by
  cases hp : h.pc <;> simp [Handler.stepsToReturn, hp] at hz
  rfl

/-- Claim C9, amended. From every state of the handler in which the context is done:
in its `select` the handler can take the done case, and then it has returned, with
StatusNormalClosure as the close it adds first; on every run on which it takes no
further notification, and on every run on which `c.Writer` gives it no writer, it takes
at most three steps, after three it has returned, and before it has returned it always
has such a step to take; and the returned state has no step at all. -/
theorem ctx_done_closes_when_no_notification_taken (h : Handler) (hd : h.ctxDone = true) :
    (h.pc = .WAITING → ∃ h', h.step .selectDone = some h' ∧ h'.pc = .CLOSED ∧
        h'.closes = h.closes ++ [StatusCode.StatusNormalClosure, StatusCode.StatusInternalError])
    ∧ (∀ (acts : List HandlerAction) (h' : Handler),
        ((∀ a ∈ acts, a.isRecv = false) ∨ (∀ a ∈ acts, a.isWrote = false)) →
        h.run acts = some h' →
          acts.length ≤ 3 ∧ (acts.length = 3 → h'.pc = .CLOSED)
          ∧ (h'.pc ≠ .CLOSED →
              ∃ a h'', a.isRecv = false ∧ a.isWrote = false ∧ h'.step a = some h''))
    ∧ (∀ (c : Handler) (a : HandlerAction), c.pc = .CLOSED → c.step a = none) := by
  refine ⟨?_, ?_, fun c a hc => step_closed c a hc⟩
  · intro hpc
    exact ⟨({ h with closes := h.closes ++ [StatusCode.StatusNormalClosure] }).ret,
      by simp [Handler.step, hpc, hd], rfl, by simp [Handler.ret]⟩
  · intro acts h' hno hr
    rcases hno with hno | hno
    · obtain ⟨hd', hle⟩ := run_towards_close acts h h' hd hno hr
      have h3 := stepsToClose_le h
      refine ⟨by omega, ?_, ?_⟩
      · intro hlen
        exact stepsToClose_eq_zero h' (by omega)
      · intro hpc
        exact progress_when_done h' hd' hpc
    · obtain ⟨hd', hle⟩ := run_towards_return acts h h' hd hno hr
      have h3 := stepsToReturn_le h
      refine ⟨by omega, ?_, ?_⟩
      · intro hlen
        exact stepsToReturn_eq_zero h' (by omega)
      · intro hpc
        exact progress_when_done h' hd' hpc

/-- Witness of the amended claim C9 on a handler in its `select` with the context done. -/
theorem ctx_done_closes_when_no_notification_taken_witness :
    cancelledState.ctxDone = true
    ∧ (cancelledState.pc = .WAITING → ∃ h', cancelledState.step .selectDone = some h' ∧
        h'.pc = .CLOSED ∧ h'.closes = cancelledState.closes ++
          [StatusCode.StatusNormalClosure, StatusCode.StatusInternalError])
    ∧ (∀ (acts : List HandlerAction) (h' : Handler),
        ((∀ a ∈ acts, a.isRecv = false) ∨ (∀ a ∈ acts, a.isWrote = false)) →
        cancelledState.run acts = some h' →
          acts.length ≤ 3 ∧ (acts.length = 3 → h'.pc = .CLOSED)
          ∧ (h'.pc ≠ .CLOSED →
              ∃ a h'', a.isRecv = false ∧ a.isWrote = false ∧ h'.step a = some h''))
    ∧ (∀ (c : Handler) (a : HandlerAction), c.pc = .CLOSED → c.step a = none) :=
  ⟨rfl, ctx_done_closes_when_no_notification_taken cancelledState rfl⟩

/-! ## The process: proofs -/

theorem sum_map_set {α : Type} (f : α → Nat) (l : List α) :
    ∀ (k : Nat) (x y : α), l[k]? = some x →
      ((l.set k y).map f).sum + f x = (l.map f).sum + f y := by
  induction l with
  | nil => intro k x y hk; simp at hk
  | cons a rest ih =>
    intro k x y hk
    cases k with
    | zero =>
      simp only [List.getElem?_cons_zero, Option.some.injEq] at hk
      subst hk
      simp only [List.set_cons_zero, List.map_cons, List.sum_cons]
      omega
    | succ k =>
      simp only [List.getElem?_cons_succ] at hk
      have := ih k x y hk
      simp only [List.set_cons_succ, List.map_cons, List.sum_cons]
      omega

theorem step_recv_effect (h h' : Handler) (file : String)
    (hs : h.step (.recv file) = some h') :
    h.pc = .WAITING ∧ h'.pc = .READING_FILE file ∧ h'.received = h.received + 1 ∧
      h'.reads = h.reads ∧ h'.messages = h.messages := by
  cases hp : h.pc <;> simp [Handler.step, hp] at hs
  subst hs
  simp [Handler.received, hp]

theorem step_local_received (h h' : Handler) (a : HandlerAction) (ha : a.isRecv = false)
    (hs : h.step a = some h') : h'.received = h.received := by
  cases a with
  | cancel =>
    cases hp : h.pc <;> simp [Handler.step, hp] at hs
    all_goals
      obtain ⟨_, rfl⟩ := hs
      simp [Handler.received, hp]
  | selectDone =>
    cases hp : h.pc <;> simp [Handler.step, hp] at hs
    obtain ⟨_, rfl⟩ := hs
    simp [Handler.ret, Handler.received, hp]
  | recv file => simp [HandlerAction.isRecv] at ha
  | readFile result =>
    cases hp : h.pc <;> simp [Handler.step, hp] at hs
    cases result with
    | ok svg =>
      simp at hs
      subst hs
      simp [Handler.received, hp]
    | error err =>
      simp at hs
      subst hs
      simp [Handler.ret, Handler.received, hp]
  | write outcome =>
    cases hp : h.pc <;> simp [Handler.step, hp] at hs
    cases outcome with
    | writerErr err =>
      simp at hs
      subst hs
      simp [Handler.ret, Handler.received, hp]
    | wrote fprintfOk closeOk =>
      simp at hs
      subst hs
      simp [Handler.received, hp]

/-- A handler writes no more messages than it has read files. -/
theorem step_delivered (h h' : Handler) (a : HandlerAction) (hs : h.step a = some h')
    (hinv : h.delivered ≤ h.reads.length) : h'.delivered ≤ h'.reads.length := by
  cases a with
  | cancel =>
    cases hp : h.pc <;> simp [Handler.step, hp] at hs
    all_goals
      obtain ⟨_, rfl⟩ := hs
      simpa [Handler.delivered, hp] using hinv
  | selectDone =>
    cases hp : h.pc <;> simp [Handler.step, hp] at hs
    obtain ⟨_, rfl⟩ := hs
    simpa [Handler.ret, Handler.delivered, hp] using hinv
  | recv file =>
    cases hp : h.pc <;> simp [Handler.step, hp] at hs
    subst hs
    simpa [Handler.delivered, hp] using hinv
  | readFile result =>
    cases hp : h.pc <;> simp [Handler.step, hp] at hs
    cases result with
    | ok svg =>
      simp at hs
      subst hs
      simpa [Handler.delivered, hp] using hinv
    | error err =>
      simp at hs
      subst hs
      simp only [Handler.delivered, hp, Nat.add_zero] at hinv
      simp [Handler.ret, Handler.delivered]
      omega
  | write outcome =>
    cases hp : h.pc <;> simp [Handler.step, hp] at hs
    cases outcome with
    | writerErr err =>
      simp at hs
      subst hs
      simp only [Handler.delivered, hp] at hinv
      simp [Handler.ret, Handler.delivered]
      omega
    | wrote fprintfOk closeOk =>
      simp at hs
      subst hs
      simp only [Handler.delivered, hp] at hinv
      cases fprintfOk <;> cases closeOk <;> simp [Handler.delivered] <;> omega

theorem recv_sent (fullPath : String) (w : Watcher) (i : WatcherInput) :
    (w.recv fullPath i).sent = w.sent := by
  unfold Watcher.recv
  split
  · split
    · split
      · split <;> rfl
      · rfl
    · rfl
    · rfl
    · rfl
  · rfl

theorem recv_started (fullPath : String) (w : Watcher) (i : WatcherInput)
    (hw : w.pc = .selecting) :
    (w.recv fullPath i).started =
      w.started + (if (SysAction.fs i).isQualifying fullPath then 1 else 0) := by
  cases i with
  | event e =>
    by_cases h1 : (e.Has Write || e.Has Create) = true
    · by_cases h2 : e.Name = fullPath
      · simp [Watcher.recv, Watcher.started, SysAction.isQualifying, hw, h1, h2]
      · simp [Watcher.recv, Watcher.started, SysAction.isQualifying, hw, h1, h2]
    · simp [Watcher.recv, Watcher.started, SysAction.isQualifying, hw, h1]
  | eventsClosed => simp [Watcher.recv, Watcher.started, SysAction.isQualifying, hw]
  | error err => simp [Watcher.recv, Watcher.started, SysAction.isQualifying, hw]
  | errorsClosed => simp [Watcher.recv, Watcher.started, SysAction.isQualifying, hw]

/-- The four kinds of step of the process, with what each needs and does. -/
theorem sys_step_cases (s s' : System) (a : SysAction) (hs : s.step a = some s') :
    (∃ i, a = .fs i ∧ s.watcher.pc = .selecting ∧
        s' = { s with watcher := s.watcher.recv s.fullPath i })
    ∨ (∃ k name h h', a = .deliver k ∧ s.watcher.pc = .sending name ∧ s.conns[k]? = some h ∧
        h.step (.recv name) = some h' ∧
        s' = { s with watcher := s.watcher.completeSend, conns := s.conns.set k h' })
    ∨ (a = .accept ∧ s' = { s with conns := s.conns ++ [Handler.start] })
    ∨ (∃ k b h h', a = .conn k b ∧ b.isRecv = false ∧ s.conns[k]? = some h ∧
        h.step b = some h' ∧ s' = { s with conns := s.conns.set k h' }) := by
  cases a with
  | fs i =>
    left
    simp only [System.step] at hs
    split at hs
    · next hp => exact ⟨i, rfl, hp, (Option.some.inj hs).symm⟩
    · exact absurd hs (by simp)
  | deliver k =>
    right; left
    simp only [System.step] at hs
    split at hs
    · next name hp =>
      split at hs
      · next h hk =>
        split at hs
        · next h' hh => exact ⟨k, name, h, h', rfl, hp, hk, hh, (Option.some.inj hs).symm⟩
        · exact absurd hs (by simp)
      · exact absurd hs (by simp)
    · exact absurd hs (by simp)
  | accept =>
    right; right; left
    simp only [System.step] at hs
    exact ⟨rfl, (Option.some.inj hs).symm⟩
  | conn k b =>
    right; right; right
    simp only [System.step] at hs
    split at hs
    · exact absurd hs (by simp)
    · next hb =>
      split at hs
      · next h hk =>
        split at hs
        · next h' hh =>
          exact ⟨k, b, h, h', rfl, by simpa using hb, hk, hh, (Option.some.inj hs).symm⟩
        · exact absurd hs (by simp)
      · exact absurd hs (by simp)

theorem completeSend_sending (w : Watcher) (name : String) (hw : w.pc = .sending name) :
    w.completeSend.sent = w.sent ++ [name] ∧ w.completeSend.pc = .selecting ∧
      w.completeSend.started = w.started := by
  simp [Watcher.completeSend, Watcher.started, hw]

theorem mem_of_getElem? {α : Type} (l : List α) (k : Nat) (x : α) (h : l[k]? = some x) :
    x ∈ l := by
  obtain ⟨hk, rfl⟩ := List.getElem?_eq_some.mp h
  exact List.getElem_mem hk

/-- Every step of the process keeps the invariant, keeps the watched path and starts
one more send exactly when it hands the watcher a qualifying event. -/
theorem sys_step_inv (s s' : System) (a : SysAction) (hs : s.step a = some s')
    (hinv : s.Inv) :
    s'.Inv ∧ s'.fullPath = s.fullPath ∧
      s'.watcher.started = s.watcher.started + (if a.isQualifying s.fullPath then 1 else 0) := by
  obtain ⟨hrec, hdel⟩ := hinv
  rcases sys_step_cases s s' a hs with ⟨i, rfl, hp, rfl⟩ | ⟨k, name, h, h', rfl, hp, hk, hh, rfl⟩ |
    ⟨rfl, rfl⟩ | ⟨k, b, h, h', rfl, hb, hk, hh, rfl⟩
  · refine ⟨⟨?_, hdel⟩, rfl, recv_started s.fullPath s.watcher i hp⟩
    simpa [System.totalReceived, recv_sent] using hrec
  · obtain ⟨_, _, h3, _, _⟩ := step_recv_effect h h' name hh
    obtain ⟨c1, _, c3⟩ := completeSend_sending s.watcher name hp
    refine ⟨⟨?_, ?_⟩, rfl, ?_⟩
    · have := sum_map_set Handler.received s.conns k h h' hk
      simp only [System.totalReceived] at hrec ⊢
      simp only [c1, List.length_append, List.length_singleton]
      omega
    · intro x hx
      rcases List.mem_or_eq_of_mem_set hx with hx | rfl
      · exact hdel x hx
      · exact step_delivered h x _ hh (hdel h (mem_of_getElem? _ k h hk))
    · simp [c3, SysAction.isQualifying]
  · refine ⟨⟨?_, ?_⟩, rfl, by simp [SysAction.isQualifying]⟩
    · simpa [System.totalReceived, Handler.received, Handler.start] using hrec
    · intro x hx
      rcases List.mem_append.mp hx with hx | hx
      · exact hdel x hx
      · rw [List.mem_singleton.mp hx]
        simp [Handler.delivered, Handler.start]
  · refine ⟨⟨?_, ?_⟩, rfl, by simp [SysAction.isQualifying]⟩
    · have := sum_map_set Handler.received s.conns k h h' hk
      have h3 := step_local_received h h' b hb hh
      simp only [System.totalReceived] at hrec ⊢
      omega
    · intro x hx
      rcases List.mem_or_eq_of_mem_set hx with hx | rfl
      · exact hdel x hx
      · exact step_delivered h x _ hh (hdel h (mem_of_getElem? _ k h hk))

theorem sys_run_inv (acts : List SysAction) :
    ∀ s s' : System, s.run acts = some s' → s.Inv →
      s'.Inv ∧ s'.fullPath = s.fullPath ∧
        s'.watcher.started = s.watcher.started + acts.countP (SysAction.isQualifying s.fullPath) := by
  induction acts with
  | nil =>
    intro s s' hr hinv
    simp only [System.run, Option.some.injEq] at hr
    subst hr
    exact ⟨hinv, rfl, by simp⟩
  | cons a rest ih =>
    intro s s' hr hinv
    cases hs : s.step a with
    | none => simp [System.run, hs] at hr
    | some s1 =>
      simp only [System.run, hs, Option.some_bind] at hr
      obtain ⟨i1, p1, q1⟩ := sys_step_inv s s1 a hs hinv
      obtain ⟨i2, p2, q2⟩ := ih s1 s' hr i1
      refine ⟨i2, p2.trans p1, ?_⟩
      rw [q2, q1, p1, List.countP_cons]
      omega

theorem sum_le_sum_of_le {α : Type} (f g : α → Nat) (l : List α) (h : ∀ x ∈ l, f x ≤ g x) :
    (l.map f).sum ≤ (l.map g).sum := by
  induction l with
  | nil => simp
  | cons a rest ih =>
    have h1 := h a (List.mem_cons_self _ _)
    have h2 := ih (fun x hx => h x (List.mem_cons_of_mem _ hx))
    simp only [List.map_cons, List.sum_cons]
    omega

theorem countP_le_sum {α : Type} (f : α → Nat) (l : List α) :
    l.countP (fun x => decide (0 < f x)) ≤ (l.map f).sum := by
  induction l with
  | nil => simp
  | cons a rest ih =>
    simp only [List.countP_cons, List.map_cons, List.sum_cons]
    by_cases h : 0 < f a <;> simp [h] <;> omega

theorem init_inv (fullPath : String) : (System.init fullPath).Inv := by
  simp [System.Inv, System.init, System.totalReceived, Watcher.start]

/-- Claim C10. In every state the process reaches from its start, the file reads done
by all connections together are at most the notifications whose send has completed,
which are at most one plus the qualifying events the watcher has received; messages
written are at most the reads. So without qualifying event at most one message is ever
written, and at most one connection has received a message, however many there are. -/
theorem each_notification_consumed_once (fullPath : String) (acts : List SysAction)
    (s : System) (hr : (System.init fullPath).run acts = some s) :
    s.totalReads ≤ s.watcher.sent.length
    ∧ s.watcher.sent.length ≤ 1 + acts.countP (SysAction.isQualifying fullPath)
    ∧ s.totalMessages ≤ s.totalReads
    ∧ (acts.countP (SysAction.isQualifying fullPath) = 0 →
        s.totalMessages ≤ 1 ∧ s.conns.countP (fun h => decide (0 < h.messages.length)) ≤ 1) := by
  obtain ⟨⟨hrec, hdel⟩, _, hst⟩ := sys_run_inv acts _ s hr (init_inv fullPath)
  have h1 : s.totalReads ≤ s.watcher.sent.length := by
    rw [← hrec]
    exact sum_le_sum_of_le _ _ _ (fun x _ => by simp [Handler.received])
  have h2 : s.watcher.sent.length ≤ 1 + acts.countP (SysAction.isQualifying fullPath) := by
    have : (System.init fullPath).watcher.started = 1 := by
      simp [System.init, Watcher.start, Watcher.started]
    have hle : s.watcher.sent.length ≤ s.watcher.started := by simp [Watcher.started]
    simp only [System.init] at hst this
    simp only [System.init] at hle
    omega
  have h3 : s.totalMessages ≤ s.totalReads :=
    sum_le_sum_of_le _ _ _ (fun x hx => by
      have := hdel x hx
      simp only [Handler.delivered] at this
      omega)
  refine ⟨h1, h2, h3, ?_⟩
  intro hq
  have h4 : s.totalMessages ≤ 1 := by omega
  exact ⟨h4, le_trans (countP_le_sum (fun h => h.messages.length) s.conns) h4⟩

theorem step_untouched (h h' : Handler) (a : HandlerAction) (ha : a.isRecv = false)
    (hs : h.step a = some h') (hu : h.untouched) : h'.untouched := by
  obtain ⟨hpc, h1, h2, h3⟩ := hu
  cases a with
  | cancel =>
    rcases hpc with hp | hp <;> simp [Handler.step, hp] at hs
    obtain ⟨_, rfl⟩ := hs
    exact ⟨Or.inl rfl, h1, h2, h3⟩
  | selectDone =>
    rcases hpc with hp | hp <;> simp [Handler.step, hp] at hs
    obtain ⟨_, rfl⟩ := hs
    exact ⟨Or.inr rfl, h1, h2, h3⟩
  | recv file => simp [HandlerAction.isRecv] at ha
  | readFile result => rcases hpc with hp | hp <;> simp [Handler.step, hp] at hs
  | write outcome => rcases hpc with hp | hp <;> simp [Handler.step, hp] at hs

theorem recv_not_sending (fullPath : String) (w : Watcher) (i : WatcherInput)
    (hi : (SysAction.fs i).isQualifying fullPath = false) (hw : ∀ name, w.pc ≠ .sending name) :
    ∀ name, (w.recv fullPath i).pc ≠ .sending name := by
  intro name
  cases hp : w.pc with
  | sending n => exact absurd hp (hw n)
  | returned => simp [Watcher.recv, hp]
  | selecting =>
    cases i with
    | event e =>
      simp only [SysAction.isQualifying, Bool.and_eq_false_iff] at hi
      by_cases h1 : (e.Has Write || e.Has Create) = true
      · have h2 : (e.Name == fullPath) = false := by
          rcases hi with hi | hi
          · rw [h1] at hi
            exact absurd hi (by simp)
          · exact hi
        simp [Watcher.recv, hp, h1, h2]
      · simp [Watcher.recv, hp, h1]
    | eventsClosed => simp [Watcher.recv, hp]
    | error err => simp [Watcher.recv, hp]
    | errorsClosed => simp [Watcher.recv, hp]

/-- While no qualifying event arrives, a connection that has received nothing keeps
receiving nothing once the watcher has no send pending. -/
theorem sys_step_starved (s s' : System) (k : Nat) (a : SysAction)
    (ha : a.isQualifying s.fullPath = false) (hs : s.step a = some s') (hst : s.starved k) :
    s'.starved k ∧ s'.fullPath = s.fullPath := by
  obtain ⟨hw, h0, hk0, hu⟩ := hst
  rcases sys_step_cases s s' a hs with ⟨i, rfl, hp, rfl⟩ | ⟨j, name, h, h', rfl, hp, hk, hh, rfl⟩ |
    ⟨rfl, rfl⟩ | ⟨j, b, h, h', rfl, hb, hk, hh, rfl⟩
  · exact ⟨⟨recv_not_sending s.fullPath s.watcher i ha hw, h0, hk0, hu⟩, rfl⟩
  · exact absurd hp (hw name)
  · refine ⟨⟨hw, h0, ?_, hu⟩, rfl⟩
    obtain ⟨hlt, _⟩ := List.getElem?_eq_some.mp hk0
    simp only [List.getElem?_append_left hlt, hk0]
  · by_cases hjk : j = k
    · subst hjk
      rw [hk0] at hk
      cases hk
      refine ⟨⟨hw, h', ?_, step_untouched h0 h' b hb hh hu⟩, rfl⟩
      obtain ⟨hlt, _⟩ := List.getElem?_eq_some.mp hk0
      simp [List.getElem?_set_self, hlt]
    · refine ⟨⟨hw, h0, ?_, hu⟩, rfl⟩
      simp only [List.getElem?_set_ne hjk, hk0]

theorem sys_run_starved (k : Nat) (acts : List SysAction) :
    ∀ s s' : System, (∀ a ∈ acts, a.isQualifying s.fullPath = false) → s.run acts = some s' →
      s.starved k → s'.starved k := by
  induction acts with
  | nil =>
    intro s s' _ hr hst
    simp only [System.run, Option.some.injEq] at hr
    subst hr
    exact hst
  | cons a rest ih =>
    intro s s' hno hr hst
    cases hs : s.step a with
    | none => simp [System.run, hs] at hr
    | some s1 =>
      simp only [System.run, hs, Option.some_bind] at hr
      obtain ⟨hst1, hfp⟩ := sys_step_starved s s1 k a (hno a (List.mem_cons_self _ _)) hs hst
      exact ih s1 s' (fun b hb => by rw [hfp]; exact hno b (List.mem_cons_of_mem _ hb)) hr hst1

theorem isQualifying_of_not_fsEvent (fullPath : String) (a : SysAction)
    (ha : a.isFsEvent = false) : a.isQualifying fullPath = false := by
  cases a with
  | fs i => cases i <;> simp_all [SysAction.isFsEvent, SysAction.isQualifying]
  | deliver k => rfl
  | accept => rfl
  | conn k b => rfl

/-- Witness of claim C10 on a run with two viewers, an error and an event for another file. -/
theorem each_notification_consumed_once_witness :
    (System.init "/tmp/a.svg").run twoViewersRun = some twoViewersState
    ∧ twoViewersState.totalReads ≤ twoViewersState.watcher.sent.length
    ∧ twoViewersState.watcher.sent.length ≤
        1 + twoViewersRun.countP (SysAction.isQualifying "/tmp/a.svg")
    ∧ twoViewersState.totalMessages ≤ twoViewersState.totalReads
    ∧ (twoViewersRun.countP (SysAction.isQualifying "/tmp/a.svg") = 0 →
        twoViewersState.totalMessages ≤ 1 ∧
        twoViewersState.conns.countP (fun h => decide (0 < h.messages.length)) ≤ 1) :=
  ⟨rfl, each_notification_consumed_once "/tmp/a.svg" twoViewersRun twoViewersState rfl⟩

theorem sys_step_received (s s' : System) (a : SysAction) (hs : s.step a = some s') :
    s'.totalReceived = s.totalReceived + (if a.isDeliver then 1 else 0) := by
  rcases sys_step_cases s s' a hs with ⟨i, rfl, hp, rfl⟩ | ⟨k, name, h, h', rfl, hp, hk, hh, rfl⟩ |
    ⟨rfl, rfl⟩ | ⟨k, b, h, h', rfl, hb, hk, hh, rfl⟩
  · simp [System.totalReceived, SysAction.isDeliver]
  · obtain ⟨_, _, h3, _, _⟩ := step_recv_effect h h' name hh
    have := sum_map_set Handler.received s.conns k h h' hk
    simp only [System.totalReceived, SysAction.isDeliver, if_true]
    omega
  · simp [System.totalReceived, SysAction.isDeliver, Handler.received, Handler.start]
  · have := sum_map_set Handler.received s.conns k h h' hk
    have h3 := step_local_received h h' b hb hh
    simp only [System.totalReceived, SysAction.isDeliver]
    simp only [Bool.false_eq_true, if_false, Nat.add_zero]
    omega

/-- As long as the watcher has completed no send, it is blocked in the startup send. -/
theorem sys_step_startup (s s' : System) (a : SysAction) (hs : s.step a = some s')
    (hj : s.watcher.sent = [] → s.watcher.pc = .sending s.fullPath) :
    s'.watcher.sent = [] → s'.watcher.pc = .sending s'.fullPath := by
  rcases sys_step_cases s s' a hs with ⟨i, rfl, hp, rfl⟩ | ⟨k, name, h, h', rfl, hp, hk, hh, rfl⟩ |
    ⟨rfl, rfl⟩ | ⟨k, b, h, h', rfl, hb, hk, hh, rfl⟩
  · intro h0
    rw [recv_sent] at h0
    rw [hj h0] at hp
    exact WatcherPC.noConfusion hp
  · intro h0
    rw [(completeSend_sending s.watcher name hp).1] at h0
    simp at h0
  · exact hj
  · exact hj

theorem sys_run_startup (acts : List SysAction) :
    ∀ s s' : System, s.run acts = some s' →
      (s.watcher.sent = [] → s.watcher.pc = .sending s.fullPath) →
      (s'.watcher.sent = [] → s'.watcher.pc = .sending s'.fullPath) := by
  induction acts with
  | nil =>
    intro s s' hr hj
    simp only [System.run, Option.some.injEq] at hr
    subst hr
    exact hj
  | cons a rest ih =>
    intro s s' hr hj
    cases hs : s.step a with
    | none => simp [System.run, hs] at hr
    | some s1 =>
      simp only [System.run, hs, Option.some_bind] at hr
      exact ih s1 s' hr (sys_step_startup s s1 a hs hj)

theorem deliver_enabled (s : System) (k : Nat) (name : String) (h : Handler)
    (hp : s.watcher.pc = .sending name) (hk : s.conns[k]? = some h) (hw : h.pc = .WAITING) :
    s.step (.deliver k) =
      some { s with watcher := s.watcher.completeSend,
                    conns := s.conns.set k { h with pc := .READING_FILE name } } := by
  simp [System.step, hp, hk, Handler.step, hw]

/-- Counterexample to claim C2 as stated. A first viewer connects and is served the
startup notification; a second viewer connects afterwards. Whatever the process does from
there without a qualifying event (errors, events for other files or of other kinds and
steps of the connections included), the second connection reads no file, calls no writer
and writes no message: the one startup send was consumed by the first. -/
theorem later_connection_gets_no_initial_push :
    (System.init "/tmp/a.svg").run secondViewerRun = some secondViewerState
    ∧ ∀ (acts : List SysAction) (s' : System),
        (∀ a ∈ acts, a.isQualifying "/tmp/a.svg" = false) →
        secondViewerState.run acts = some s' →
        ∃ h, s'.conns[1]? = some h ∧ h.reads = [] ∧ h.writerCalls = 0 ∧ h.messages = [] := by
  refine ⟨rfl, ?_⟩
  intro acts s' hno hr
  have hst : secondViewerState.starved 1 :=
    ⟨fun name h => WatcherPC.noConfusion h, freshHandler, rfl, Or.inl rfl, rfl, rfl, rfl⟩
  obtain ⟨_, h, hk, _, h1, h2, h3⟩ := sys_run_starved 1 acts _ s' hno hr hst
  exact ⟨h, hk, h1, h2, h3⟩

/-- Claim C2, amended. The watcher sends one startup notification for the whole
process. In every state the process reaches: if no qualifying event was received, at
most one notification was received and at most one connection has read the file; as long
as the startup send has not completed, every connection waiting in its `select` can take
it, which puts that connection right before the read of the watched path; and when the
watcher has no send pending, a connection accepted now stays in its `select` or returns
without a read, a writer call or a message on every continuation that hands the watcher
no qualifying event, whatever else happens. -/
theorem startup_notification_serves_one_connection (fullPath : String)
    (acts : List SysAction) (s : System)
    (hr : (System.init fullPath).run acts = some s) :
    (acts.countP (SysAction.isQualifying fullPath) = 0 →
        s.totalReceived ≤ 1 ∧ s.conns.countP (fun h => decide (0 < h.reads.length)) ≤ 1)
    ∧ (∀ (k : Nat) (h : Handler), s.watcher.sent = [] → s.conns[k]? = some h →
        h.pc = .WAITING →
        ∃ s1, s.step (.deliver k) = some s1 ∧ s1.watcher.sent = [fullPath] ∧
          s1.conns[k]? = some { h with pc := .READING_FILE fullPath })
    ∧ ((∀ name, s.watcher.pc ≠ .sending name) →
        ∀ (post : List SysAction) (s' : System),
          (∀ a ∈ post, a.isQualifying fullPath = false) →
          s.run (.accept :: post) = some s' →
          ∃ h, s'.conns[s.conns.length]? = some h ∧ (h.pc = .WAITING ∨ h.pc = .CLOSED) ∧
            h.reads = [] ∧ h.writerCalls = 0 ∧ h.messages = []) := by
  obtain ⟨⟨hrec, _⟩, hfp, hst⟩ := sys_run_inv acts _ s hr (init_inv fullPath)
  have hfp' : s.fullPath = fullPath := hfp
  refine ⟨?_, ?_, ?_⟩
  · intro hq
    have h1 : s.totalReceived ≤ 1 := by
      have : (System.init fullPath).watcher.started = 1 := by
        simp [System.init, Watcher.start, Watcher.started]
      have hle : s.watcher.sent.length ≤ s.watcher.started := by simp [Watcher.started]
      simp only [System.init] at hst this
      omega
    have h2 : s.totalReads ≤ s.totalReceived :=
      sum_le_sum_of_le _ _ _ (fun x _ => by simp [Handler.received])
    exact ⟨h1, le_trans (countP_le_sum (fun h => h.reads.length) s.conns) (le_trans h2 h1)⟩
  · intro k h h0 hk hw
    have hj := sys_run_startup acts _ s hr (fun _ => rfl) h0
    rw [hfp'] at hj
    refine ⟨_, deliver_enabled s k fullPath h hj hk hw, ?_, ?_⟩
    · simp [(completeSend_sending s.watcher fullPath hj).1, h0]
    · obtain ⟨hlt, _⟩ := List.getElem?_eq_some.mp hk
      simp [List.getElem?_set_self, hlt]
  · intro hw post s' hno hrun
    have hrun' : ({ s with conns := s.conns ++ [Handler.start] } : System).run post = some s' := by
      simpa [System.run, System.step] using hrun
    have hst1 : ({ s with conns := s.conns ++ [Handler.start] } : System).starved
        s.conns.length :=
      ⟨hw, Handler.start, by simp, Or.inl rfl, rfl, rfl, rfl⟩
    obtain ⟨_, h, hk, hpc, h1, h2, h3⟩ := sys_run_starved s.conns.length post _ s'
      (fun a ha => by
        show a.isQualifying s.fullPath = false
        rw [hfp']
        exact hno a ha) hrun' hst1
    exact ⟨h, hk, hpc, h1, h2, h3⟩

/-- Witness of the amended claim C2: a first viewer was served the startup notification;
a second viewer connects and an event for another file arrives, and the second viewer
has still read nothing. -/
theorem startup_notification_serves_one_connection_witness :
    (System.init "/tmp/a.svg").run firstViewerRun = some firstServedState
    ∧ (firstViewerRun.countP (SysAction.isQualifying "/tmp/a.svg") = 0 →
        firstServedState.totalReceived ≤ 1 ∧
        firstServedState.conns.countP (fun h => decide (0 < h.reads.length)) ≤ 1)
    ∧ firstServedState.run [.accept, .fs (.event ⟨"/tmp/b.svg", 2⟩)] = some secondViewerState
    ∧ ∃ h, secondViewerState.conns[firstServedState.conns.length]? = some h ∧
        (h.pc = .WAITING ∨ h.pc = .CLOSED) ∧ h.reads = [] ∧ h.writerCalls = 0 ∧
        h.messages = [] :=
  ⟨rfl,
    (startup_notification_serves_one_connection "/tmp/a.svg" firstViewerRun firstServedState
      rfl).1,
    rfl,
    (startup_notification_serves_one_connection "/tmp/a.svg" firstViewerRun firstServedState
      rfl).2.2 (fun _ h => WatcherPC.noConfusion h) [.fs (.event ⟨"/tmp/b.svg", 2⟩)]
      secondViewerState (by decide) rfl⟩

/-- Counterexample to claim C3 as stated. Two connections wait in their `select` when
the watcher emits the startup notification. The first takes it; the second, which was
active and waiting at that moment, does not observe it: whatever the process does from
there without a new filesystem event, the second connection reads no file and writes no
message. -/
theorem waiting_connection_misses_notification :
    (System.init "/tmp/a.svg").run [.accept, .accept] = some twoWaitingState
    ∧ twoWaitingState.conns.map Handler.pc = [.WAITING, .WAITING]
    ∧ twoWaitingState.step (.deliver 0) = some oneServedState
    ∧ oneServedState.watcher.sent = ["/tmp/a.svg"]
    ∧ ∀ (acts : List SysAction) (s' : System), (∀ a ∈ acts, a.isFsEvent = false) →
        oneServedState.run acts = some s' →
        ∃ h, s'.conns[1]? = some h ∧ h.reads = [] ∧ h.writerCalls = 0 ∧ h.messages = [] := by
  refine ⟨rfl, rfl, rfl, rfl, ?_⟩
  intro acts s' hno hr
  have hst : oneServedState.starved 1 :=
    ⟨fun name h => WatcherPC.noConfusion h, freshHandler, rfl, Or.inl rfl, rfl, rfl, rfl⟩
  obtain ⟨_, h, hk, _, h1, h2, h3⟩ := sys_run_starved 1 acts _ s'
    (fun a ha => isQualifying_of_not_fsEvent _ a (hno a ha)) hr hst
  exact ⟨h, hk, h1, h2, h3⟩

/-- Claim C3, amended. The channel hands each notification to exactly one delivery
loop. A connection waiting in its `select` while the watcher is blocked in a send can
take the value, whatever the other connections do; when connection `k` takes it, the send
completes, `k` stands right before the read of the notified path, and every other
connection is left as it was; and no other step of the process gives a notification to
any connection. -/
theorem notification_taken_by_exactly_one_loop (s : System) (k : Nat) :
    (∀ (name : String) (h : Handler), s.watcher.pc = .sending name → s.conns[k]? = some h →
        h.pc = .WAITING → ∃ s', s.step (.deliver k) = some s')
    ∧ (∀ s', s.step (.deliver k) = some s' →
        ∃ (name : String) (h : Handler), s.watcher.pc = .sending name ∧ s.conns[k]? = some h ∧
          h.pc = .WAITING ∧
          s'.watcher.sent = s.watcher.sent ++ [name] ∧
          s'.conns[k]? = some { h with pc := .READING_FILE name } ∧
          (∀ j, j ≠ k → s'.conns[j]? = s.conns[j]?) ∧
          s'.totalReceived = s.totalReceived + 1)
    ∧ (∀ (a : SysAction) (s' : System), a.isDeliver = false → s.step a = some s' →
        s'.totalReceived = s.totalReceived) := by
  refine ⟨?_, ?_, ?_⟩
  · intro name h hp hk hw
    exact ⟨_, deliver_enabled s k name h hp hk hw⟩
  · intro s' hs
    have hrec := sys_step_received s s' _ hs
    rcases sys_step_cases s s' _ hs with ⟨i, hi, _, _⟩ | ⟨j, name, h, h', hj, hp, hk, hh, rfl⟩ |
      ⟨ha, _⟩ | ⟨j, b, h, h', hj, _, _, _, _⟩
    · exact SysAction.noConfusion hi
    · cases hj
      obtain ⟨hw, _, _, _, _⟩ := step_recv_effect h h' name hh
      have hh' : h' = { h with pc := .READING_FILE name } := by
        simp [Handler.step, hw] at hh
        exact hh.symm
      obtain ⟨hlt, _⟩ := List.getElem?_eq_some.mp hk
      refine ⟨name, h, hp, hk, hw, (completeSend_sending s.watcher name hp).1, ?_, ?_, ?_⟩
      · simp [List.getElem?_set_self, hlt, hh']
      · intro i hi
        simp only [List.getElem?_set_ne (Ne.symm hi)]
      · simpa [SysAction.isDeliver] using hrec
    · exact SysAction.noConfusion ha
    · exact SysAction.noConfusion hj
  · intro a s' ha hs
    have hrec := sys_step_received s s' a hs
    simpa [ha] using hrec

/-- Witness of the amended claim C3 on two waiting viewers and the startup notification. -/
theorem notification_taken_by_exactly_one_loop_witness :
    twoWaitingState.step (.deliver 0) = some oneServedState
    ∧ ∃ (name : String) (h : Handler), twoWaitingState.watcher.pc = .sending name ∧
        twoWaitingState.conns[0]? = some h ∧ h.pc = .WAITING ∧
        oneServedState.watcher.sent = twoWaitingState.watcher.sent ++ [name] ∧
        oneServedState.conns[0]? = some { h with pc := .READING_FILE name } ∧
        (∀ j, j ≠ 0 → oneServedState.conns[j]? = twoWaitingState.conns[j]?) ∧
        oneServedState.totalReceived = twoWaitingState.totalReceived + 1 :=
  ⟨rfl, (notification_taken_by_exactly_one_loop twoWaitingState 0).2.1 oneServedState rfl⟩

end SvgLiveReloader
